import Mathlib

/-!
Shallow embedding of the Data Shapley contribution-scoring core of the
repository: the chunker, feature extractor, valuator and Shapley estimator
of `agent_logic/shapley_scorer.py`, and the reward mapping of
`agent_logic/ml_pipeline.py`.

Conventions of the embedding:
* machine floats are modelled as rationals (`ℚ`); `np.std`, which is an
  irrational square root, is threaded through as an abstract parameter
  `std : List ℚ → ℚ`, since no verified property depends on its value;
* the scikit-learn regressor (`RandomForestRegressor(random_state=42)` fit,
  `predict` and `r2_score`) is an external library call; it is threaded
  through as an abstract deterministic parameter
  `model : trainX → trainY → testX → testY → Except String ℚ`
  whose `Except.error` case models a raised model-fit exception;
* the ambient `random` generator is modelled by an explicit tape of natural
  numbers: each primitive draw consumes one tape entry and maps it into the
  requested range, so every source of nondeterminism is an explicit input;
* a Python expression that can raise for structurally invalid input
  (out-of-range list index, division by a zero iteration count) is modelled
  with `Option`: `none` is a raise, `some v` is a normal return;
* Python lists read by the estimator are threaded through the embedding and
  returned, so that the frame property (the pool is never mutated) is a
  statement about the embedded functions.
-/

/-- One chunk of fNIRS + glucose data, as in `DataChunk` of
`shapley_scorer.py`: a two-channel signal matrix, an aligned glucose series,
start offset, duration, and the two identity fields. -/
structure DataChunk where
  fnirs_data : List (ℚ × ℚ)
  glucose_data : List ℚ
  start_time : ℚ
  duration : ℚ
  chunk_id : ℕ
  session_id : String
deriving DecidableEq

instance : Inhabited DataChunk := ⟨⟨[], [], 0, 0, 0, ""⟩⟩

/-- The identity key of a chunk: `DataChunk.__eq__` and `__hash__` use only
`(chunk_id, session_id)`. -/
def dcKey (c : DataChunk) : ℕ × String := (c.chunk_id, c.session_id)

/-- `DataChunk.__eq__`: equality by `(chunk_id, session_id)` only. -/
def dcEq (a b : DataChunk) : Bool :=
  a.chunk_id == b.chunk_id && a.session_id == b.session_id

/-- Pop the next value off the random tape (0 when the tape is exhausted). -/
def takeNat : List ℕ → ℕ × List ℕ
  | [] => (0, [])
  | t :: ts => (t, ts)

/-- `random.randint(a, b)`: one tape draw mapped into `[a, b]` (both ends
included). -/
def randint (a b : ℕ) (tape : List ℕ) : ℕ × List ℕ :=
  (a + (takeNat tape).1 % (b + 1 - a), (takeNat tape).2)

/-- `random.sample(pop, k)`: `k` draws without replacement, each draw picking
one remaining position off the tape.  The population list is never mutated;
the recursion removes positions only from its own working copy. -/
def sample_list {α : Type} : List α → ℕ → List ℕ → List α × List ℕ
  | _, 0, tape => ([], tape)
  | pop, k + 1, tape =>
    match pop.get? ((takeNat tape).1 % pop.length) with
    | none => ([], (takeNat tape).2)
    | some x =>
      let rest := sample_list (pop.eraseIdx ((takeNat tape).1 % pop.length)) k (takeNat tape).2
      (x :: rest.1, rest.2)

/-- `random.choice(seq)`: one tape draw selecting a position; `none` models
the raise on an empty sequence. -/
def choice_list {α : Type} (xs : List α) (tape : List ℕ) : Option α × List ℕ :=
  (xs.get? ((takeNat tape).1 % xs.length), (takeNat tape).2)

/-- Python list indexing `xs[i]`: the read value (`none` = `IndexError`)
together with the list, which indexing leaves unchanged. -/
def pyIndex {α : Type} (xs : List α) (i : ℕ) : Option α × List α :=
  (xs.get? i, xs)

/-- A Python list comprehension `[c for c in xs if p c]`: the fresh filtered
list together with the source list, which the comprehension leaves
unchanged. -/
def pyFilter {α : Type} (p : α → Bool) (xs : List α) : List α × List α :=
  (xs.filter p, xs)

/-- Python `int(q)`: truncation toward zero. -/
def pyInt (q : ℚ) : ℤ :=
  if 0 ≤ q then ⌊q⌋ else ⌈q⌉

/-- `np.mean` of a list of rationals (only ever applied to nonempty
windows). -/
def qmean (l : List ℚ) : ℚ := l.sum / (l.length : ℚ)

/-- `np.min` of a list of rationals. -/
def qmin : List ℚ → ℚ
  | [] => 0
  | x :: xs => xs.foldl min x

/-- `np.max` of a list of rationals. -/
def qmax : List ℚ → ℚ
  | [] => 0
  | x :: xs => xs.foldl max x

/-- The consecutive strides `data[i*k : i*k + k]` walked by
`range(0, len(data), k)`.  Structured as fuel recursion (the fuel
`data.length` suffices for any positive stride `k`). -/
def strides_go {α : Type} (k : ℕ) : ℕ → List α → List (List α)
  | 0, _ => []
  | _, [] => []
  | fuel + 1, l => l.take k :: strides_go k fuel (l.drop k)

/-- All strides of width `k` over `l`. -/
def strides_of {α : Type} (k : ℕ) (l : List α) : List (List α) :=
  strides_go k l.length l

/-- One row of a loaded session table: `Time`, the two optical channels and
the attached `glucose` column. -/
structure SessionRow where
  time : ℚ
  ch740 : ℚ
  ch850 : ℚ
  glucose : ℚ
deriving DecidableEq

/-- Build the `DataChunk` for one retained slice, as in the body of
`_split_into_chunks`. -/
def chunk_of_slice (session_id : String) (chunk_id : ℕ) (s : List SessionRow) : DataChunk :=
  { fnirs_data := s.map (fun r => (r.ch740, r.ch850))
  , glucose_data := s.map (fun r => r.glucose)
  , start_time := (s.headD ⟨0, 0, 0, 0⟩).time
  , duration := (s.length : ℚ) / 10
  , chunk_id := chunk_id
  , session_id := session_id }

/-- The chunking loop of `_split_into_chunks`: keep a stride only when its
sample count is at least 80% of the nominal chunk size, numbering only the
retained strides. -/
def split_chunks_go (session_id : String) (k : ℕ) : ℕ → List (List SessionRow) → List DataChunk
  | _, [] => []
  | cid, s :: rest =>
    if (s.length : ℚ) ≥ (k : ℚ) * 0.8 then
      chunk_of_slice session_id cid s :: split_chunks_go session_id k (cid + 1) rest
    else
      split_chunks_go session_id k cid rest

/-- `_split_into_chunks(data, session_id)` with nominal chunk size
`k = chunk_size_samples`. -/
def split_into_chunks (k : ℕ) (data : List SessionRow) (session_id : String) : List DataChunk :=
  split_chunks_go session_id k 0 (strides_of k data)

/-- Spec-side companion of the chunking loop: number every slice of a list
consecutively.  Used to state that the chunker equals
filter-by-80%-then-number. -/
def number_all (session_id : String) : ℕ → List (List SessionRow) → List DataChunk
  | _, [] => []
  | cid, s :: rest => chunk_of_slice session_id cid s :: number_all session_id (cid + 1) rest

/-- One feature row of `_extract_simple_features`: per channel
{mean, std, min, max}, concatenated over the two channels. -/
def feat_row (std : List ℚ → ℚ) (w : List (ℚ × ℚ)) : List ℚ :=
  [ qmean (w.map Prod.fst), std (w.map Prod.fst), qmin (w.map Prod.fst), qmax (w.map Prod.fst)
  , qmean (w.map Prod.snd), std (w.map Prod.snd), qmin (w.map Prod.snd), qmax (w.map Prod.snd) ]

/-- `_extract_simple_features(fnirs_data)`: windows of 60 samples; a window
with fewer than 50% of the nominal size is skipped; the empty input returns
the empty (0 × 8) matrix. -/
def extract_simple_features (std : List ℚ → ℚ) (fnirs : List (ℚ × ℚ)) : List (List ℚ) :=
  if fnirs = [] then []
  else
    (strides_of 60 fnirs).filterMap (fun w =>
      if (w.length : ℚ) < 60 * 0.5 then none else some (feat_row std w))

/-- The per-window glucose averaging of `_train_and_evaluate`: the mean of
each 60-sample window holding at least 50% of the nominal window size. -/
def window_glucose (g : List ℚ) : List ℚ :=
  (strides_of 60 g).filterMap (fun w =>
    if (w.length : ℚ) ≥ 60 * 0.5 then some (qmean w) else none)

/-- The feature/glucose collection loop of `_train_and_evaluate`: a chunk
with no valid feature window is skipped, and a chunk whose window counts
disagree is skipped. -/
def collect_pairs (std : List ℚ → ℚ) (chunks : List DataChunk) :
    List (List (List ℚ) × List ℚ) :=
  chunks.filterMap (fun ch =>
    let feats := extract_simple_features std ch.fnirs_data
    if feats = [] then none
    else
      let glu := window_glucose ch.glucose_data
      if glu.length = feats.length then some (feats, glu) else none)

/-- `_train_and_evaluate(train_chunks, test_chunks)`: returns the sentinel
-1 for an empty training set, for no collected training or test windows, and
for a model-fit exception; otherwise the model score clipped to at least
-1. -/
def train_and_evaluate (std : List ℚ → ℚ)
    (model : List (List ℚ) → List ℚ → List (List ℚ) → List ℚ → Except String ℚ)
    (train_chunks test_chunks : List DataChunk) : ℚ :=
  if train_chunks = [] then -1
  else
    let train_pairs := collect_pairs std train_chunks
    if train_pairs = [] then -1
    else
      let test_pairs := collect_pairs std test_chunks
      if test_pairs = [] then -1
      else
        match model ((train_pairs.map Prod.fst).flatten) ((train_pairs.map Prod.snd).flatten)
            ((test_pairs.map Prod.fst).flatten) ((test_pairs.map Prod.snd).flatten) with
        | Except.error _ => -1
        | Except.ok r2 => max r2 (-1)

/-- One iteration of the `calculate_within_session_shapley` loop: draw a
coalition size in `[1, max(1, pool-1)]`, draw the coalition without
replacement, reserve a test chunk outside the coalition (skipping the
iteration when none remains), and accumulate the marginal contribution. -/
def within_iter (std : List ℚ → ℚ)
    (model : List (List ℚ) → List ℚ → List (List ℚ) → List ℚ → Except String ℚ)
    (other_chunks : List DataChunk) (target_chunk : DataChunk)
    (st : ℚ × List ℕ) : ℚ × List ℕ :=
  let sz := randint 1 (max 1 (other_chunks.length - 1)) st.2
  let co := sample_list other_chunks sz.1 sz.2
  let remaining := other_chunks.filter (fun c => ! co.1.any (fun d => dcEq c d))
  if remaining = [] then (st.1, co.2)
  else
    let te := choice_list remaining co.2
    match te.1 with
    | none => (st.1, te.2)
    | some test_chunk =>
      let perf_without := train_and_evaluate std model co.1 [test_chunk]
      let perf_with := train_and_evaluate std model (co.1 ++ [target_chunk]) [test_chunk]
      (st.1 + (perf_with - perf_without), te.2)

/-- The `num_coalitions` iterations of the within-session loop. -/
def within_loop (std : List ℚ → ℚ)
    (model : List (List ℚ) → List ℚ → List (List ℚ) → List ℚ → Except String ℚ)
    (other_chunks : List DataChunk) (target_chunk : DataChunk) :
    ℕ → ℚ × List ℕ → ℚ × List ℕ
  | 0, st => st
  | n + 1, st =>
    within_loop std model other_chunks target_chunk n
      (within_iter std model other_chunks target_chunk st)

/-- `calculate_within_session_shapley(session_chunks, target_chunk_id,
num_coalitions)`.  Returns the estimate (with `none` modelling the raises:
an out-of-range target index, or the final division with a zero iteration
count) together with the chunk pool threaded through the reads. -/
def calculate_within_session_shapley (std : List ℚ → ℚ)
    (model : List (List ℚ) → List ℚ → List (List ℚ) → List ℚ → Except String ℚ)
    (session_chunks : List DataChunk) (target_chunk_id num_coalitions : ℕ)
    (tape : List ℕ) : Option ℚ × List DataChunk :=
  let idx := pyIndex session_chunks target_chunk_id
  match idx.1 with
  | none => (none, idx.2)
  | some target_chunk =>
    let flt := pyFilter (fun c => c.chunk_id != target_chunk_id) idx.2
    if flt.1.length < 2 then (some 0, flt.2)
    else
      let res := within_loop std model flt.1 target_chunk num_coalitions (0, tape)
      if num_coalitions = 0 then (none, flt.2)
      else (some (res.1 / (num_coalitions : ℚ)), flt.2)

/-- One iteration of the `calculate_between_session_shapley` loop: draw a
coalition size in `[1, pool]`, draw the coalition without replacement, and
accumulate the marginal contribution against the fixed other-session test
set. -/
def between_iter (std : List ℚ → ℚ)
    (model : List (List ℚ) → List ℚ → List (List ℚ) → List ℚ → Except String ℚ)
    (other_chunks : List DataChunk) (target_chunk : DataChunk)
    (test_chunks : List DataChunk) (st : ℚ × List ℕ) : ℚ × List ℕ :=
  let sz := randint 1 other_chunks.length st.2
  let co := sample_list other_chunks sz.1 sz.2
  let perf_without := train_and_evaluate std model co.1 test_chunks
  let perf_with := train_and_evaluate std model (co.1 ++ [target_chunk]) test_chunks
  (st.1 + (perf_with - perf_without), co.2)

/-- The `num_coalitions` iterations of the between-session loop. -/
def between_loop (std : List ℚ → ℚ)
    (model : List (List ℚ) → List ℚ → List (List ℚ) → List ℚ → Except String ℚ)
    (other_chunks : List DataChunk) (target_chunk : DataChunk)
    (test_chunks : List DataChunk) : ℕ → ℚ × List ℕ → ℚ × List ℕ
  | 0, st => st
  | n + 1, st =>
    between_loop std model other_chunks target_chunk test_chunks n
      (between_iter std model other_chunks target_chunk test_chunks st)

/-- `calculate_between_session_shapley(session1_chunks, session2_chunks,
target_chunk_id, num_coalitions)`, with both session pools threaded
through. -/
def calculate_between_session_shapley (std : List ℚ → ℚ)
    (model : List (List ℚ) → List ℚ → List (List ℚ) → List ℚ → Except String ℚ)
    (session1_chunks session2_chunks : List DataChunk)
    (target_chunk_id num_coalitions : ℕ) (tape : List ℕ) :
    Option ℚ × (List DataChunk × List DataChunk) :=
  let idx := pyIndex session1_chunks target_chunk_id
  match idx.1 with
  | none => (none, (idx.2, session2_chunks))
  | some target_chunk =>
    let flt := pyFilter (fun c => c.chunk_id != target_chunk_id) idx.2
    if flt.1.length < 1 then (some 0, (flt.2, session2_chunks))
    else
      let res := between_loop std model flt.1 target_chunk session2_chunks num_coalitions (0, tape)
      if num_coalitions = 0 then (none, (flt.2, session2_chunks))
      else (some (res.1 / (num_coalitions : ℚ)), (flt.2, session2_chunks))

/-- Instrumented twin of the within-session loop: the same draws in the same
tape order, recording for each iteration the sampled size, the coalition and
the chosen test chunk (`none` when the iteration was skipped). -/
def within_trace (other_chunks : List DataChunk) :
    ℕ → List ℕ → List (ℕ × List DataChunk × Option DataChunk) × List ℕ
  | 0, tape => ([], tape)
  | n + 1, tape =>
    let sz := randint 1 (max 1 (other_chunks.length - 1)) tape
    let co := sample_list other_chunks sz.1 sz.2
    let remaining := other_chunks.filter (fun c => ! co.1.any (fun d => dcEq c d))
    if remaining = [] then
      let rest := within_trace other_chunks n co.2
      ((sz.1, co.1, none) :: rest.1, rest.2)
    else
      let te := choice_list remaining co.2
      let rest := within_trace other_chunks n te.2
      ((sz.1, co.1, te.1) :: rest.1, rest.2)

/-- The marginal contribution of one recorded within-session iteration
(0 for a skipped iteration). -/
def within_marg (std : List ℚ → ℚ)
    (model : List (List ℚ) → List ℚ → List (List ℚ) → List ℚ → Except String ℚ)
    (target_chunk : DataChunk) (r : ℕ × List DataChunk × Option DataChunk) : ℚ :=
  match r.2.2 with
  | none => 0
  | some test_chunk =>
    train_and_evaluate std model (r.2.1 ++ [target_chunk]) [test_chunk]
      - train_and_evaluate std model r.2.1 [test_chunk]

/-- Instrumented twin of the between-session loop: records the sampled size
and coalition of each iteration. -/
def between_trace (other_chunks : List DataChunk) :
    ℕ → List ℕ → List (ℕ × List DataChunk) × List ℕ
  | 0, tape => ([], tape)
  | n + 1, tape =>
    let sz := randint 1 other_chunks.length tape
    let co := sample_list other_chunks sz.1 sz.2
    let rest := between_trace other_chunks n co.2
    ((sz.1, co.1) :: rest.1, rest.2)

/-- The marginal contribution of one recorded between-session iteration. -/
def between_marg (std : List ℚ → ℚ)
    (model : List (List ℚ) → List ℚ → List (List ℚ) → List ℚ → Except String ℚ)
    (target_chunk : DataChunk) (test_chunks : List DataChunk)
    (r : ℕ × List DataChunk) : ℚ :=
  train_and_evaluate std model (r.2 ++ [target_chunk]) test_chunks
    - train_and_evaluate std model r.2 test_chunks

/-- The clip of the Shapley value to the empirically observed range, from the
reward mapping in `ml_pipeline.py`. -/
def shapley_normalized_of (v : ℚ) : ℚ := max (-0.1) (min 0.2 v)

/-- `shapley_score`: the clipped value rescaled linearly to 0..80 points. -/
def shapley_score_of (v : ℚ) : ℤ :=
  pyInt (((shapley_normalized_of v + 0.1) / 0.3) * 80)

/-- `quality_bonus`: completeness × capped signal-to-noise ratio × 2,
clamped to 0..20 points. -/
def quality_bonus_of (completeness snr : ℚ) : ℤ :=
  min 20 (max 0 (pyInt (completeness * min snr 10 * 2)))

/-- `contribution_score`: Shapley points plus quality bonus, clamped to
0..100. -/
def score_contribution (v completeness snr : ℚ) : ℤ :=
  min 100 (max 0 (shapley_score_of v + quality_bonus_of completeness snr))

/-- Fixture: the abstract `np.std` instantiated by the zero function. -/
def zero_std : List ℚ → ℚ := fun _ => 0

/-- Fixture: a deterministic instance of the abstract regressor whose score
is the number of training rows (so that larger coalitions score higher). -/
def row_count_model : List (List ℚ) → List ℚ → List (List ℚ) → List ℚ → Except String ℚ :=
  fun trainX _ _ _ => Except.ok ((trainX.length : ℚ))

/-- Fixture: a regressor instance whose fit always raises. -/
def err_model : List (List ℚ) → List ℚ → List (List ℚ) → List ℚ → Except String ℚ :=
  fun _ _ _ _ => Except.error "model fit failed"

/-- Fixture: a 30-sample two-channel signal (one valid 60-sample half
window). -/
def demo_fnirs : List (ℚ × ℚ) := List.replicate 30 (1, 1)

/-- Fixture: a 30-sample glucose series aligned with `demo_fnirs`. -/
def demo_glucose : List ℚ := List.replicate 30 6

/-- Fixture: one demo chunk with the given identity. -/
def mk_demo_chunk (cid : ℕ) (sid : String) : DataChunk :=
  ⟨demo_fnirs, demo_glucose, 0, 3, cid, sid⟩

/-- Fixture: a session of two chunks (one other chunk besides the target). -/
def demo_pair : List DataChunk := [mk_demo_chunk 0 "session1", mk_demo_chunk 1 "session1"]

/-- Fixture: a pool of three peer chunks. -/
def demo_pool3 : List DataChunk :=
  [mk_demo_chunk 0 "session1", mk_demo_chunk 1 "session1", mk_demo_chunk 2 "session1"]

/-- Fixture: a session of four chunks. -/
def demo_pool4 : List DataChunk := demo_pool3 ++ [mk_demo_chunk 3 "session1"]

/-- Fixture: a one-chunk second session used as a between-session test set. -/
def demo_s2 : List DataChunk := [mk_demo_chunk 0 "session2"]

/-- Fixture: one session-table row with the given timestamp. -/
def demo_row (q : ℚ) : SessionRow := ⟨q, 1, 1, 6⟩

/-- Fixture: a four-row session table (two full strides at chunk size 2). -/
def demo_rows : List SessionRow := [demo_row 0, demo_row 1, demo_row 2, demo_row 3]

/-! ## Helper lemmas -/

theorem strides_go_map_length {α β : Type} (k : ℕ) :
    ∀ (f : ℕ) (l₁ : List α) (l₂ : List β), l₁.length = l₂.length →
      (strides_go k f l₁).map List.length = (strides_go k f l₂).map List.length := by
  intro f
  induction f with
  | zero => intro l₁ l₂ _; simp [strides_go]
  | succ f ih =>
    intro l₁ l₂ h
    cases l₁ with
    | nil =>
      cases l₂ with
      | nil => rfl
      | cons b l₂ => simp at h
    | cons a l₁ =>
      cases l₂ with
      | nil => simp at h
      | cons b l₂ =>
        simp only [strides_go, List.map_cons]
        congr 1
        · simp only [List.length_take, h]
        · exact ih _ _ (by simp only [List.length_drop, h])

theorem length_filterMap_if_none {α β : Type} (q : ℕ → Prop) [DecidablePred q]
    (f : List α → β) :
    ∀ l : List (List α),
      (l.filterMap (fun w => if q w.length then none else some (f w))).length
        = (l.map List.length).countP (fun n => ! decide (q n)) := by
  intro l
  induction l with
  | nil => rfl
  | cons a l ih =>
    by_cases h : q a.length <;>
      simp [List.filterMap_cons, List.countP_cons, h, ih]

theorem length_filterMap_if_some {α β : Type} (q : ℕ → Prop) [DecidablePred q]
    (f : List α → β) :
    ∀ l : List (List α),
      (l.filterMap (fun w => if q w.length then some (f w) else none)).length
        = (l.map List.length).countP (fun n => decide (q n)) := by
  intro l
  induction l with
  | nil => rfl
  | cons a l ih =>
    by_cases h : q a.length <;>
      simp [List.filterMap_cons, List.countP_cons, h, ih]

theorem split_go_eq_number_filter (sid : String) (k : ℕ) :
    ∀ (ss : List (List SessionRow)) (cid : ℕ),
      split_chunks_go sid k cid ss
        = number_all sid cid (ss.filter (fun s => decide ((s.length : ℚ) ≥ (k : ℚ) * 0.8))) := by
  intro ss
  induction ss with
  | nil => intro cid; rfl
  | cons s rest ih =>
    intro cid
    by_cases h : (s.length : ℚ) ≥ (k : ℚ) * 0.8 <;>
      simp [split_chunks_go, List.filter_cons, h, number_all, ih]

theorem number_all_getD (sid : String) :
    ∀ (ss : List (List SessionRow)) (cid i : ℕ), i < (number_all sid cid ss).length →
      ((number_all sid cid ss).getD i default).chunk_id = cid + i := by
  intro ss
  induction ss with
  | nil => intro cid i h; simp [number_all] at h
  | cons s rest ih =>
    intro cid i h
    cases i with
    | zero => simp [number_all, chunk_of_slice]
    | succ i =>
      have h' : i < (number_all sid (cid + 1) rest).length := by
        simpa [number_all] using h
      have hrec := ih (cid + 1) i h'
      simp only [number_all, List.getD_cons_succ]
      rw [hrec]
      omega

theorem ids_filter_eraseIdx :
    ∀ (l : List DataChunk) (a : ℕ),
      (∀ i, i < l.length → (l.getD i default).chunk_id = a + i) →
      ∀ t, l.filter (fun c => c.chunk_id != (a + t)) = l.eraseIdx t := by
  intro l
  induction l with
  | nil => intro a _ t; rfl
  | cons hd tl ih =>
    intro a hids t
    have hhd : hd.chunk_id = a := by simpa using hids 0 (by simp)
    have htl : ∀ i, i < tl.length → (tl.getD i default).chunk_id = (a + 1) + i := by
      intro i h
      have hrec := hids (i + 1) (by simpa using Nat.succ_lt_succ h)
      simp only [List.getD_cons_succ] at hrec
      rw [hrec]
      omega
    cases t with
    | zero =>
      have hdrop : ¬ ((fun c => c.chunk_id != (a + 0)) hd) := by simp [hhd]
      have hkeep : tl.filter (fun c => c.chunk_id != (a + 0)) = tl := by
        apply List.filter_eq_self.mpr
        intro c hc
        obtain ⟨j, hjlt, hj⟩ := List.mem_iff_getElem.mp hc
        have hcid : c.chunk_id = (a + 1) + j := by
          rw [← hj, ← List.getD_eq_getElem tl default hjlt]
          exact htl j hjlt
        simp only [hcid, bne_iff_ne, ne_eq]
        omega
      rw [List.filter_cons_of_neg (p := fun c : DataChunk => c.chunk_id != (a + 0)) hdrop,
        List.eraseIdx_cons_zero]
      exact hkeep
    | succ t =>
      have hkeepc : ((fun c => c.chunk_id != (a + (t + 1))) hd) := by
        simp only [hhd, bne_iff_ne, ne_eq]
        omega
      have harith : a + (t + 1) = (a + 1) + t := by omega
      rw [List.filter_cons_of_pos (p := fun c : DataChunk => c.chunk_id != (a + (t + 1))) hkeepc,
        List.eraseIdx_cons_succ]
      congr 1
      simp only [harith]
      exact ih (a + 1) htl t

theorem split_eq_filter_number (k : ℕ) (data : List SessionRow) (sid : String) :
    split_into_chunks k data sid
      = number_all sid 0
          ((strides_of k data).filter (fun s => decide ((s.length : ℚ) ≥ (k : ℚ) * 0.8))) := by
  unfold split_into_chunks
  exact split_go_eq_number_filter sid k (strides_of k data) 0

/-! ## Claim theorems -/

/-- C5: for every input table, the chunker retains a candidate stride as a
chunk exactly when its sample count is at least 80% of the nominal chunk
size, numbering the retained strides in order; shorter strides are dropped
silently (the function is total, with no error outcome). -/
theorem chunker_retains_iff_80pct (k : ℕ) (data : List SessionRow) (sid : String) :
    split_into_chunks k data sid
      = number_all sid 0
          ((strides_of k data).filter (fun s => decide ((s.length : ℚ) ≥ (k : ℚ) * 0.8))) :=
  split_eq_filter_number k data sid

/-- C9: the chunker's output is numbered 0..k-1 by position, so selecting the
target by list index and filtering peers by `chunk_id` designate the same
chunk: the peer filter is exactly the removal of the indexed element. -/
theorem chunker_ids_match_positions (k : ℕ) (data : List SessionRow) (sid : String) :
    (∀ i, i < (split_into_chunks k data sid).length →
        ((split_into_chunks k data sid).getD i default).chunk_id = i)
    ∧ ∀ t, (split_into_chunks k data sid).filter (fun c => c.chunk_id != t)
        = (split_into_chunks k data sid).eraseIdx t := by
  have hget : ∀ i, i < (split_into_chunks k data sid).length →
      ((split_into_chunks k data sid).getD i default).chunk_id = i := by
    intro i h
    rw [split_eq_filter_number k data sid] at h ⊢
    have := number_all_getD sid _ 0 i h
    rw [this]
    omega
  refine ⟨hget, fun t => ?_⟩
  have := ids_filter_eraseIdx (split_into_chunks k data sid) 0
    (by intro i h; rw [hget i h]; omega) t
  simpa using this

/-- C3: the valuator returns the fixed sentinel -1 for an empty training
coalition regardless of the test set; any model-fit exception is mapped to
the same sentinel; and the valuator is total with all outcomes clipped to at
least the sentinel (it never raises for routine degeneracy). -/
theorem valuator_sentinel (std : List ℚ → ℚ)
    (model : List (List ℚ) → List ℚ → List (List ℚ) → List ℚ → Except String ℚ) :
    (∀ test_chunks, train_and_evaluate std model [] test_chunks = -1)
    ∧ (∀ train_chunks test_chunks,
        (∀ a b c d, ∃ msg, model a b c d = Except.error msg) →
        train_and_evaluate std model train_chunks test_chunks = -1)
    ∧ (∀ train_chunks test_chunks, -1 ≤ train_and_evaluate std model train_chunks test_chunks) := by
  refine ⟨fun test_chunks => rfl, ?_, ?_⟩
  · intro train_chunks test_chunks hmod
    simp only [train_and_evaluate]
    split
    · rfl
    · split
      · rfl
      · split
        · rfl
        · obtain ⟨msg, hmsg⟩ := hmod ((collect_pairs std train_chunks).map Prod.fst).flatten
            ((collect_pairs std train_chunks).map Prod.snd).flatten
            ((collect_pairs std test_chunks).map Prod.fst).flatten
            ((collect_pairs std test_chunks).map Prod.snd).flatten
          rw [hmsg]
  · intro train_chunks test_chunks
    simp only [train_and_evaluate]
    split
    · exact le_refl _
    · split
      · exact le_refl _
      · split
        · exact le_refl _
        · split
          · exact le_refl _
          · exact le_max_right _ _

/-- C3 witness: a model instance that always raises is mapped to the
sentinel on a concrete nonempty training pool and test set. -/
theorem valuator_sentinel_witness :
    train_and_evaluate zero_std err_model demo_pair demo_s2 = -1 :=
  (valuator_sentinel zero_std err_model).2.1 demo_pair demo_s2
    (fun _ _ _ _ => ⟨"model fit failed", rfl⟩)

/-- C4: for any two-channel signal and an aligned target series of the same
length, windowed feature extraction and windowed target averaging produce
the same number of rows: windows below 50% of the nominal 60 samples are
dropped from both in lockstep. -/
theorem features_targets_lockstep (std : List ℚ → ℚ) (fnirs : List (ℚ × ℚ)) (glucose : List ℚ)
    (h : fnirs.length = glucose.length) :
    (extract_simple_features std fnirs).length = (window_glucose glucose).length := by
  unfold extract_simple_features window_glucose
  by_cases hf : fnirs = []
  · have hg : glucose = [] := by
      apply List.length_eq_zero.mp
      rw [← h, hf]
      rfl
    subst hf; subst hg
    simp [strides_of, strides_go]
  · rw [if_neg hf]
    rw [length_filterMap_if_none (fun n => (n : ℚ) < 60 * 0.5) (feat_row std)]
    rw [length_filterMap_if_some (fun n => (n : ℚ) ≥ 60 * 0.5) qmean]
    have hmap : (strides_of 60 fnirs).map List.length
        = (strides_of 60 glucose).map List.length := by
      unfold strides_of
      rw [h]
      exact strides_go_map_length 60 glucose.length fnirs glucose h
    rw [hmap]
    apply List.countP_congr
    intro n _
    simp [not_lt, ge_iff_le]

/-- C4 witness: lockstep row counts on a concrete 30-sample chunk. -/
theorem features_targets_lockstep_witness :
    (extract_simple_features zero_std demo_fnirs).length
      = (window_glucose demo_glucose).length :=
  features_targets_lockstep zero_std demo_fnirs demo_glucose (by decide)

/-- C7: Shapley estimation is read-only on the chunk pools: both estimators
return the threaded pools unchanged (and with them every chunk's fields),
for every input and every random-tape state. -/
theorem estimator_pool_readonly (std : List ℚ → ℚ)
    (model : List (List ℚ) → List ℚ → List (List ℚ) → List ℚ → Except String ℚ)
    (chunks s1 s2 : List DataChunk) (t N : ℕ) (tape : List ℕ) :
    (calculate_within_session_shapley std model chunks t N tape).2 = chunks
    ∧ (calculate_between_session_shapley std model s1 s2 t N tape).2 = (s1, s2) := by
  constructor
  · simp only [calculate_within_session_shapley, pyIndex, pyFilter]
    rcases h : chunks.get? t with _ | tgt <;> simp only [h]
    split
    · rfl
    · split <;> rfl
  · simp only [calculate_between_session_shapley, pyIndex, pyFilter]
    rcases h : s1.get? t with _ | tgt <;> simp only [h]
    split
    · rfl
    · split <;> rfl

theorem shapley_normalized_bounds (v : ℚ) :
    (-0.1 : ℚ) ≤ shapley_normalized_of v ∧ shapley_normalized_of v ≤ 0.2 :=
  ⟨le_max_left _ _, max_le (by norm_num) (min_le_left _ _)⟩

theorem shapley_rescaled_nonneg (v : ℚ) :
    (0 : ℚ) ≤ ((shapley_normalized_of v + 0.1) / 0.3) * 80 := by
  have h1 := (shapley_normalized_bounds v).1
  apply mul_nonneg _ (by norm_num)
  apply div_nonneg _ (by norm_num)
  linarith

theorem shapley_score_bounds (v : ℚ) :
    0 ≤ shapley_score_of v ∧ shapley_score_of v ≤ 80 := by
  have hx0 := shapley_rescaled_nonneg v
  have h2 := (shapley_normalized_bounds v).2
  have hx80 : ((shapley_normalized_of v + 0.1) / 0.3) * 80 ≤ 80 := by
    rw [div_mul_eq_mul_div, div_le_iff₀ (by norm_num)]
    linarith
  unfold shapley_score_of pyInt
  rw [if_pos hx0]
  refine ⟨Int.floor_nonneg.mpr hx0, ?_⟩
  have := Int.floor_le_floor hx80
  simpa using this

theorem shapley_score_mono {v w : ℚ} (h : v ≤ w) :
    shapley_score_of v ≤ shapley_score_of w := by
  have hmn : shapley_normalized_of v ≤ shapley_normalized_of w :=
    max_le_max le_rfl (min_le_min le_rfl h)
  have hx : ((shapley_normalized_of v + 0.1) / 0.3) * 80
      ≤ ((shapley_normalized_of w + 0.1) / 0.3) * 80 := by
    have h3 : shapley_normalized_of v + 0.1 ≤ shapley_normalized_of w + 0.1 := by linarith
    have h4 : (shapley_normalized_of v + 0.1) / 0.3
        ≤ (shapley_normalized_of w + 0.1) / 0.3 := by
      apply div_le_div_of_nonneg_right h3 ?_ |>.trans_eq rfl
      norm_num
    exact mul_le_mul_of_nonneg_right h4 (by norm_num)
  unfold shapley_score_of pyInt
  rw [if_pos (shapley_rescaled_nonneg v), if_pos (shapley_rescaled_nonneg w)]
  exact Int.floor_le_floor hx

/-- C8: the reward mapping clips the Shapley value to [-0.1, 0.2], rescales
it to at most 80 points, adds a quality bonus clamped to [0, 20], and yields
a contribution score in [0, 100] that is monotone non-decreasing in the
Shapley value with the quality metrics held fixed. -/
theorem reward_mapping_bounds_monotone (v w completeness snr : ℚ) (h : v ≤ w) :
    ((-0.1 : ℚ) ≤ shapley_normalized_of v ∧ shapley_normalized_of v ≤ 0.2)
    ∧ (0 ≤ shapley_score_of v ∧ shapley_score_of v ≤ 80)
    ∧ (0 ≤ quality_bonus_of completeness snr ∧ quality_bonus_of completeness snr ≤ 20)
    ∧ (0 ≤ score_contribution v completeness snr
        ∧ score_contribution v completeness snr ≤ 100)
    ∧ score_contribution v completeness snr ≤ score_contribution w completeness snr := by
  refine ⟨shapley_normalized_bounds v, shapley_score_bounds v, ?_, ?_, ?_⟩
  · exact ⟨le_min (by norm_num) (le_max_left _ _), min_le_left _ _⟩
  · exact ⟨le_min (by norm_num) (le_max_left _ _), min_le_left _ _⟩
  · unfold score_contribution
    exact min_le_min le_rfl (max_le_max le_rfl (add_le_add_right (shapley_score_mono h) _))

/-- C8 witness: the bounds and the monotone step evaluated at a concrete
pair of Shapley values and fixed quality metrics. -/
theorem reward_mapping_bounds_monotone_witness :
    ((-0.1 : ℚ) ≤ shapley_normalized_of 0 ∧ shapley_normalized_of 0 ≤ 0.2)
    ∧ (0 ≤ shapley_score_of 0 ∧ shapley_score_of 0 ≤ 80)
    ∧ (0 ≤ quality_bonus_of 1 5 ∧ quality_bonus_of 1 5 ≤ 20)
    ∧ (0 ≤ score_contribution 0 1 5 ∧ score_contribution 0 1 5 ≤ 100)
    ∧ score_contribution 0 1 5 ≤ score_contribution (1/10) 1 5 :=
  reward_mapping_bounds_monotone 0 (1/10) 1 5 (by norm_num)

/-- C10: with the deterministic model fixed (the source pins
`random_state=42`), both estimators are functions of exactly the chunk pools,
the target index, the iteration count and the state of the injected random
generator: two runs agreeing on those inputs return equal results. -/
theorem estimator_deterministic (std : List ℚ → ℚ)
    (model : List (List ℚ) → List ℚ → List (List ℚ) → List ℚ → Except String ℚ)
    (chunks chunks' s1 s1' s2 s2' : List DataChunk) (t t' N N' : ℕ) (tape tape' : List ℕ)
    (hc : chunks = chunks') (hs1 : s1 = s1') (hs2 : s2 = s2')
    (ht : t = t') (hN : N = N') (htape : tape = tape') :
    calculate_within_session_shapley std model chunks t N tape
      = calculate_within_session_shapley std model chunks' t' N' tape'
    ∧ calculate_between_session_shapley std model s1 s2 t N tape
      = calculate_between_session_shapley std model s1' s2' t' N' tape' := by
  subst hc; subst hs1; subst hs2; subst ht; subst hN; subst htape
  exact ⟨rfl, rfl⟩

/-- C10 witness: two textually identical runs on concrete inputs agree. -/
theorem estimator_deterministic_witness :
    calculate_within_session_shapley zero_std row_count_model demo_pool4 0 1 [0, 0, 0]
      = calculate_within_session_shapley zero_std row_count_model demo_pool4 0 1 [0, 0, 0]
    ∧ calculate_between_session_shapley zero_std row_count_model demo_pair demo_s2 0 1 [0, 0, 0]
      = calculate_between_session_shapley zero_std row_count_model demo_pair demo_s2 0 1 [0, 0, 0] :=
  estimator_deterministic zero_std row_count_model demo_pool4 demo_pool4 demo_pair demo_pair
    demo_s2 demo_s2 0 0 1 1 [0, 0, 0] [0, 0, 0] rfl rfl rfl rfl rfl rfl

theorem dcEq_iff (a b : DataChunk) : dcEq a b = true ↔ dcKey a = dcKey b := by
  simp [dcEq, dcKey, Prod.ext_iff]

theorem getElem_cons_eraseIdx_perm {α : Type} [DecidableEq α] (l : List α) (i : ℕ)
    (h : i < l.length) : (l[i] :: l.eraseIdx i).Perm l := by
  have h1 : (l.erase l[i]).Perm (l.eraseIdx i) := List.erase_getElem h
  have h2 : l.Perm (l[i] :: l.erase l[i]) :=
    List.perm_cons_erase (List.getElem_mem h)
  exact ((h1.cons l[i]).symm.trans h2.symm)

theorem sample_list_append_perm {α : Type} [DecidableEq α] :
    ∀ (k : ℕ) (pop : List α) (tape : List ℕ),
      ∃ rest, ((sample_list pop k tape).1 ++ rest).Perm pop := by
  intro k
  induction k with
  | zero => intro pop tape; exact ⟨pop, by simp [sample_list]⟩
  | succ k ih =>
    intro pop tape
    rcases hp : pop[(takeNat tape).1 % pop.length]? with _ | x
    · refine ⟨pop, ?_⟩
      have hval : (sample_list pop (k + 1) tape).1 = [] := by
        simp [sample_list, hp]
      rw [hval]
      simp
    · have hi : (takeNat tape).1 % pop.length < pop.length := by
        rcases Nat.eq_zero_or_pos pop.length with h0 | h0
        · rw [List.length_eq_zero.mp h0] at hp
          simp at hp
        · exact Nat.mod_lt _ h0
      have hx : pop[(takeNat tape).1 % pop.length] = x := by
        rw [List.getElem?_eq_getElem hi] at hp
        exact Option.some_injective _ hp
      obtain ⟨rest, hrest⟩ :=
        ih (pop.eraseIdx ((takeNat tape).1 % pop.length)) (takeNat tape).2
      refine ⟨rest, ?_⟩
      have hstep := getElem_cons_eraseIdx_perm pop ((takeNat tape).1 % pop.length) hi
      rw [hx] at hstep
      have hval : (sample_list pop (k + 1) tape).1
          = x :: (sample_list (pop.eraseIdx ((takeNat tape).1 % pop.length)) k
              (takeNat tape).2).1 := by
        simp [sample_list, hp]
      rw [hval, List.cons_append]
      exact (hrest.cons x).trans hstep

theorem sample_list_subperm {α : Type} [DecidableEq α] (k : ℕ) (pop : List α)
    (tape : List ℕ) : List.Subperm (sample_list pop k tape).1 pop := by
  obtain ⟨rest, hrest⟩ := sample_list_append_perm k pop tape
  exact ((List.sublist_append_left _ rest).subperm).trans hrest.subperm

theorem sample_list_length {α : Type} :
    ∀ (k : ℕ) (pop : List α) (tape : List ℕ), k ≤ pop.length →
      (sample_list pop k tape).1.length = k := by
  intro k
  induction k with
  | zero => intro pop tape _; rfl
  | succ k ih =>
    intro pop tape hk
    have h0 : 0 < pop.length := by omega
    have hi : (takeNat tape).1 % pop.length < pop.length := Nat.mod_lt _ h0
    have hp : pop[(takeNat tape).1 % pop.length]?
        = some pop[(takeNat tape).1 % pop.length] := List.getElem?_eq_getElem hi
    have hlen : (pop.eraseIdx ((takeNat tape).1 % pop.length)).length = pop.length - 1 := by
      have := List.length_eraseIdx_add_one hi
      omega
    have hrec := ih (pop.eraseIdx ((takeNat tape).1 % pop.length)) (takeNat tape).2
      (by rw [hlen]; omega)
    have hval : (sample_list pop (k + 1) tape).1
        = pop[(takeNat tape).1 % pop.length]
            :: (sample_list (pop.eraseIdx ((takeNat tape).1 % pop.length)) k
              (takeNat tape).2).1 := by
      simp [sample_list, hp]
    rw [hval]
    simp [hrec]

theorem length_filter_split {α : Type} (p : α → Bool) :
    ∀ l : List α, (l.filter p).length + (l.filter (fun a => ! p a)).length = l.length := by
  intro l
  induction l with
  | nil => rfl
  | cons a l ih =>
    rcases hpa : p a with _ | _ <;>
      simp [List.filter_cons, hpa, ← ih] <;> omega

theorem filter_out_by_key_le (others coalition : List DataChunk)
    (hnd : (others.map dcKey).Nodup) :
    (others.filter (fun c => coalition.any (fun d => dcEq c d))).length ≤ coalition.length := by
  set fo := others.filter (fun c => coalition.any (fun d => dcEq c d)) with hfo
  have hnd' : (fo.map dcKey).Nodup :=
    hnd.sublist ((List.filter_sublist others).map dcKey)
  have hsub : ∀ x ∈ fo.map dcKey, x ∈ coalition.map dcKey := by
    intro x hx
    obtain ⟨c, hc, hcx⟩ := List.mem_map.mp hx
    have hmem := List.mem_filter.mp (hfo ▸ hc)
    obtain ⟨d, hd, hde⟩ := List.any_eq_true.mp hmem.2
    have : dcKey c = dcKey d := (dcEq_iff c d).mp hde
    exact List.mem_map.mpr ⟨d, hd, by rw [← hcx, this]⟩
  calc fo.length = (fo.map dcKey).length := (List.length_map _ _).symm
    _ = (fo.map dcKey).toFinset.card := (List.toFinset_card_of_nodup hnd').symm
    _ ≤ (coalition.map dcKey).toFinset.card := by
        apply Finset.card_le_card
        intro x hx
        exact List.mem_toFinset.mpr (hsub x (List.mem_toFinset.mp hx))
    _ ≤ (coalition.map dcKey).length := List.toFinset_card_le _
    _ = coalition.length := List.length_map _ _

theorem remaining_length_lower (others coalition : List DataChunk)
    (hnd : (others.map dcKey).Nodup) :
    others.length
      ≤ (others.filter (fun c => ! coalition.any (fun d => dcEq c d))).length
        + coalition.length := by
  have hsplit := length_filter_split (fun c => coalition.any (fun d => dcEq c d)) others
  have hle := filter_out_by_key_le others coalition hnd
  omega

theorem within_trace_length (others : List DataChunk) :
    ∀ (n : ℕ) (tape : List ℕ), (within_trace others n tape).1.length = n := by
  intro n
  induction n with
  | zero => intro tape; rfl
  | succ n ih =>
    intro tape
    simp only [within_trace]
    split <;> simp [ih]

theorem between_trace_length (others : List DataChunk) :
    ∀ (n : ℕ) (tape : List ℕ), (between_trace others n tape).1.length = n := by
  intro n
  induction n with
  | zero => intro tape; rfl
  | succ n ih =>
    intro tape
    simp only [between_trace]
    simp [ih]

theorem within_trace_basic (others : List DataChunk) (h2 : 2 ≤ others.length) :
    ∀ (n : ℕ) (tape : List ℕ), ∀ r ∈ (within_trace others n tape).1,
      1 ≤ r.1 ∧ r.1 ≤ others.length - 1 ∧ r.2.1.length = r.1
        ∧ List.Subperm r.2.1 others := by
  intro n
  induction n with
  | zero => intro tape r hr; simp [within_trace] at hr
  | succ n ih =>
    intro tape r hr
    have hm : max 1 (others.length - 1) = others.length - 1 := by omega
    have hsz1 : 1 ≤ (randint 1 (max 1 (others.length - 1)) tape).1 := by
      simp [randint]
    have hmod : (takeNat tape).1 % (max 1 (others.length - 1) + 1 - 1)
        < max 1 (others.length - 1) := by
      apply Nat.mod_lt
      omega
    have hszle : (randint 1 (max 1 (others.length - 1)) tape).1 ≤ others.length - 1 := by
      simp only [randint]
      omega
    have hlen : (sample_list others (randint 1 (max 1 (others.length - 1)) tape).1
        (randint 1 (max 1 (others.length - 1)) tape).2).1.length
          = (randint 1 (max 1 (others.length - 1)) tape).1 :=
      sample_list_length _ others _ (by omega)
    have hsp := sample_list_subperm (randint 1 (max 1 (others.length - 1)) tape).1 others
      (randint 1 (max 1 (others.length - 1)) tape).2
    simp only [within_trace] at hr
    split at hr <;>
      rcases List.mem_cons.mp hr with rfl | hmem <;>
      first
        | exact ⟨hsz1, hszle, hlen, hsp⟩
        | exact ih _ r hmem

theorem between_trace_basic (others : List DataChunk) (h1 : 1 ≤ others.length) :
    ∀ (n : ℕ) (tape : List ℕ), ∀ r ∈ (between_trace others n tape).1,
      1 ≤ r.1 ∧ r.1 ≤ others.length ∧ r.2.length = r.1
        ∧ List.Subperm r.2 others := by
  intro n
  induction n with
  | zero => intro tape r hr; simp [between_trace] at hr
  | succ n ih =>
    intro tape r hr
    have hsz1 : 1 ≤ (randint 1 others.length tape).1 := by
      simp [randint]
    have hmod : (takeNat tape).1 % (others.length + 1 - 1) < others.length := by
      apply Nat.mod_lt
      omega
    have hszle : (randint 1 others.length tape).1 ≤ others.length := by
      simp only [randint]
      omega
    have hlen : (sample_list others (randint 1 others.length tape).1
        (randint 1 others.length tape).2).1.length
          = (randint 1 others.length tape).1 :=
      sample_list_length _ others _ hszle
    have hsp := sample_list_subperm (randint 1 others.length tape).1 others
      (randint 1 others.length tape).2
    simp only [between_trace] at hr
    rcases List.mem_cons.mp hr with rfl | hmem
    · exact ⟨hsz1, hszle, hlen, hsp⟩
    · exact ih _ r hmem

theorem choice_list_some {α : Type} (xs : List α) (tape : List ℕ) (h : xs ≠ []) :
    ∃ y, (choice_list xs tape).1 = some y ∧ y ∈ xs := by
  have hpos : 0 < xs.length := List.length_pos.mpr h
  have hidx : (takeNat tape).1 % xs.length < xs.length := Nat.mod_lt _ hpos
  exact ⟨xs[(takeNat tape).1 % xs.length],
    by simp [choice_list, List.getElem?_eq_getElem hidx],
    List.getElem_mem hidx⟩

theorem within_remaining_ne (others : List DataChunk)
    (hnd : (others.map dcKey).Nodup) (h2 : 2 ≤ others.length) (tape : List ℕ) :
    others.filter (fun c =>
        ! (sample_list others (randint 1 (max 1 (others.length - 1)) tape).1
            (randint 1 (max 1 (others.length - 1)) tape).2).1.any (fun d => dcEq c d))
      ≠ [] := by
  have hm : max 1 (others.length - 1) = others.length - 1 := by omega
  have hmod : (takeNat tape).1 % (max 1 (others.length - 1) + 1 - 1)
      < max 1 (others.length - 1) := by
    apply Nat.mod_lt
    omega
  have hszle : (randint 1 (max 1 (others.length - 1)) tape).1 ≤ others.length - 1 := by
    simp only [randint]
    omega
  have hlen : (sample_list others (randint 1 (max 1 (others.length - 1)) tape).1
      (randint 1 (max 1 (others.length - 1)) tape).2).1.length
        = (randint 1 (max 1 (others.length - 1)) tape).1 :=
    sample_list_length _ others _ (by omega)
  have hlow := remaining_length_lower others
    (sample_list others (randint 1 (max 1 (others.length - 1)) tape).1
      (randint 1 (max 1 (others.length - 1)) tape).2).1 hnd
  intro hnil
  rw [hnil] at hlow
  simp only [List.length_nil] at hlow
  omega

theorem within_trace_test (others : List DataChunk)
    (hnd : (others.map dcKey).Nodup) (h2 : 2 ≤ others.length) :
    ∀ (n : ℕ) (tape : List ℕ), ∀ r ∈ (within_trace others n tape).1,
      ∃ test, r.2.2 = some test ∧ test ∈ others
        ∧ (r.2.1.any (fun d => dcEq test d)) = false := by
  intro n
  induction n with
  | zero => intro tape r hr; simp [within_trace] at hr
  | succ n ih =>
    intro tape r hr
    simp only [within_trace] at hr
    split at hr
    · exact absurd (by assumption) (within_remaining_ne others hnd h2 tape)
    · rcases List.mem_cons.mp hr with rfl | hmem
      · obtain ⟨y, hy1, hy2⟩ := choice_list_some _
          (sample_list others (randint 1 (max 1 (others.length - 1)) tape).1
            (randint 1 (max 1 (others.length - 1)) tape).2).2 (by assumption)
        refine ⟨y, hy1, (List.mem_filter.mp hy2).1, ?_⟩
        have hpred := (List.mem_filter.mp hy2).2
        simpa using hpred
      · exact ih _ r hmem

theorem within_trace_first_size (others : List DataChunk) (h2 : 2 ≤ others.length)
    (k : ℕ) (h1k : 1 ≤ k) (hk : k ≤ others.length - 1) :
    ((within_trace others 1 [k - 1]).1.map (fun r => r.1)) = [k] := by
  have hm : max 1 (others.length - 1) = others.length - 1 := by omega
  have hsz : (randint 1 (max 1 (others.length - 1)) [k - 1]).1 = k := by
    simp only [randint, takeNat, hm]
    rw [Nat.mod_eq_of_lt (by omega)]
    omega
  simp only [within_trace]
  split <;> simp [within_trace, hsz]

theorem between_trace_first_size (others : List DataChunk) (h1 : 1 ≤ others.length)
    (k : ℕ) (h1k : 1 ≤ k) (hk : k ≤ others.length) :
    ((between_trace others 1 [k - 1]).1.map (fun r => r.1)) = [k] := by
  have hsz : (randint 1 others.length [k - 1]).1 = k := by
    simp only [randint, takeNat]
    rw [Nat.mod_eq_of_lt (by omega)]
    omega
  simp only [between_trace]
  simp [between_trace, hsz]

theorem within_loop_eq_trace (std : List ℚ → ℚ)
    (model : List (List ℚ) → List ℚ → List (List ℚ) → List ℚ → Except String ℚ)
    (others : List DataChunk) (target : DataChunk) :
    ∀ (n : ℕ) (acc : ℚ) (tape : List ℕ),
      within_loop std model others target n (acc, tape)
        = (acc + ((within_trace others n tape).1.map (within_marg std model target)).sum,
           (within_trace others n tape).2) := by
  intro n
  induction n with
  | zero => intro acc tape; simp [within_loop, within_trace]
  | succ n ih =>
    intro acc tape
    have hstep : within_loop std model others target (n + 1) (acc, tape)
        = within_loop std model others target n
            (within_iter std model others target (acc, tape)) := rfl
    rw [hstep]
    simp only [within_iter, within_trace]
    split
    · rw [ih]
      simp only [List.map_cons, List.sum_cons, within_marg]
      rw [Prod.ext_iff]
      constructor
      · simp
      · rfl
    · rcases hte : (choice_list (others.filter (fun c =>
          ! (sample_list others (randint 1 (max 1 (others.length - 1)) tape).1
              (randint 1 (max 1 (others.length - 1)) tape).2).1.any (fun d => dcEq c d)))
          (sample_list others (randint 1 (max 1 (others.length - 1)) tape).1
            (randint 1 (max 1 (others.length - 1)) tape).2).2).1 with _ | test
      · rw [ih]
        simp only [List.map_cons, List.sum_cons, within_marg]
        rw [Prod.ext_iff]
        constructor
        · simp
        · rfl
      · rw [ih]
        simp only [List.map_cons, List.sum_cons, within_marg]
        rw [Prod.ext_iff]
        constructor
        · simp only []
          ring
        · rfl

theorem between_loop_eq_trace (std : List ℚ → ℚ)
    (model : List (List ℚ) → List ℚ → List (List ℚ) → List ℚ → Except String ℚ)
    (others : List DataChunk) (target : DataChunk) (test_chunks : List DataChunk) :
    ∀ (n : ℕ) (acc : ℚ) (tape : List ℕ),
      between_loop std model others target test_chunks n (acc, tape)
        = (acc + ((between_trace others n tape).1.map
              (between_marg std model target test_chunks)).sum,
           (between_trace others n tape).2) := by
  intro n
  induction n with
  | zero => intro acc tape; simp [between_loop, between_trace]
  | succ n ih =>
    intro acc tape
    have hstep : between_loop std model others target test_chunks (n + 1) (acc, tape)
        = between_loop std model others target test_chunks n
            (between_iter std model others target test_chunks (acc, tape)) := rfl
    rw [hstep]
    simp only [between_iter, between_trace]
    rw [ih]
    simp only [List.map_cons, List.sum_cons, between_marg]
    rw [Prod.ext_iff]
    constructor
    · simp only []
      ring
    · rfl

theorem get?_eq_some_getD {α : Type} [Inhabited α] (l : List α) (t : ℕ) (h : t < l.length) :
    l.get? t = some (l.getD t default) := by
  rw [List.get?_eq_getElem?, List.getElem?_eq_getElem h, List.getD_eq_getElem l default h]

theorem within_shapley_eq_trace (std : List ℚ → ℚ)
    (model : List (List ℚ) → List ℚ → List (List ℚ) → List ℚ → Except String ℚ)
    (chunks : List DataChunk) (t N : ℕ) (tape : List ℕ)
    (hlt : t < chunks.length)
    (h2 : ¬ ((chunks.filter (fun c => c.chunk_id != t)).length < 2))
    (hN : N ≠ 0) :
    (calculate_within_session_shapley std model chunks t N tape).1
      = some ((((within_trace (chunks.filter (fun c => c.chunk_id != t)) N tape).1.map
          (within_marg std model (chunks.getD t default))).sum) / (N : ℚ)) := by
  have hsome := get?_eq_some_getD chunks t hlt
  simp only [calculate_within_session_shapley, pyIndex, pyFilter, hsome]
  rw [if_neg h2, if_neg hN]
  rw [within_loop_eq_trace]
  simp

theorem between_shapley_eq_trace (std : List ℚ → ℚ)
    (model : List (List ℚ) → List ℚ → List (List ℚ) → List ℚ → Except String ℚ)
    (s1 s2 : List DataChunk) (t N : ℕ) (tape : List ℕ)
    (hlt : t < s1.length)
    (h1 : ¬ ((s1.filter (fun c => c.chunk_id != t)).length < 1))
    (hN : N ≠ 0) :
    (calculate_between_session_shapley std model s1 s2 t N tape).1
      = some ((((between_trace (s1.filter (fun c => c.chunk_id != t)) N tape).1.map
          (between_marg std model (s1.getD t default) s2)).sum) / (N : ℚ)) := by
  have hsome := get?_eq_some_getD s1 t hlt
  simp only [calculate_between_session_shapley, pyIndex, pyFilter, hsome]
  rw [if_neg h1, if_neg hN]
  rw [between_loop_eq_trace]
  simp

/-- C1 (amended): with fewer than 2 other chunks the within-session estimator
returns 0.0 without raising; the between-session estimator returns 0.0
without raising only when there are no other chunks at all (its guard is
`< 1`, not `< 2`). -/
theorem insufficient_peers_amended (std : List ℚ → ℚ)
    (model : List (List ℚ) → List ℚ → List (List ℚ) → List ℚ → Except String ℚ)
    (chunks s1 s2 : List DataChunk) (t N : ℕ) (tape : List ℕ)
    (hw : t < chunks.length) (hb : t < s1.length)
    (h1 : (chunks.filter (fun c => c.chunk_id != t)).length < 2)
    (h0 : (s1.filter (fun c => c.chunk_id != t)).length < 1) :
    (calculate_within_session_shapley std model chunks t N tape).1 = some 0
    ∧ (calculate_between_session_shapley std model s1 s2 t N tape).1 = some 0 := by
  constructor
  · have hsome := get?_eq_some_getD chunks t hw
    simp only [calculate_within_session_shapley, pyIndex, pyFilter, hsome]
    rw [if_pos h1]
  · have hsome := get?_eq_some_getD s1 t hb
    simp only [calculate_between_session_shapley, pyIndex, pyFilter, hsome]
    rw [if_pos h0]

/-- C1 witness: a two-chunk session (one other chunk) returns 0.0 in
within-session mode, and a one-chunk session (no other chunk) returns 0.0 in
between-session mode. -/
theorem insufficient_peers_amended_witness :
    (calculate_within_session_shapley zero_std row_count_model demo_pair 0 5 [1, 2, 3]).1
        = some 0
    ∧ (calculate_between_session_shapley zero_std row_count_model
          [mk_demo_chunk 0 "session1"] demo_s2 0 5 [1, 2, 3]).1 = some 0 :=
  insufficient_peers_amended zero_std row_count_model demo_pair
    [mk_demo_chunk 0 "session1"] demo_s2 0 5 [1, 2, 3]
    (by decide) (by decide) (by decide) (by decide)

theorem strides_go_nil {α : Type} (k : ℕ) : ∀ f, strides_go k f ([] : List α) = [] := by
  intro f
  cases f <;> rfl

theorem strides_of_small {α : Type} (l : List α) (h0 : l ≠ []) (h60 : l.length ≤ 60) :
    strides_of 60 l = [l] := by
  cases l with
  | nil => simp at h0
  | cons a l2 =>
    unfold strides_of
    simp only [List.length_cons, strides_go]
    rw [List.take_of_length_le (by simpa using h60),
      List.drop_eq_nil_of_le (by simpa using h60), strides_go_nil]

theorem demo_extract :
    extract_simple_features zero_std demo_fnirs = [feat_row zero_std demo_fnirs] := by
  have hne : demo_fnirs ≠ [] := by simp [demo_fnirs]
  have hlen : demo_fnirs.length = 30 := by simp [demo_fnirs]
  have hcond : ¬ ((demo_fnirs.length : ℚ) < 60 * 0.5) := by
    rw [hlen]
    norm_num
  unfold extract_simple_features
  rw [if_neg hne, strides_of_small demo_fnirs hne (by omega)]
  simp only [List.filterMap_cons, List.filterMap_nil]
  rw [if_neg hcond]

theorem demo_window : window_glucose demo_glucose = [qmean demo_glucose] := by
  have hne : demo_glucose ≠ [] := by simp [demo_glucose]
  have hlen : demo_glucose.length = 30 := by simp [demo_glucose]
  have hcond : (demo_glucose.length : ℚ) ≥ 60 * 0.5 := by
    rw [hlen]
    norm_num
  unfold window_glucose
  rw [strides_of_small demo_glucose hne (by omega)]
  simp only [List.filterMap_cons, List.filterMap_nil]
  rw [if_pos hcond]

theorem collect_pairs_demo (cs : List DataChunk)
    (h : ∀ c ∈ cs, c.fnirs_data = demo_fnirs ∧ c.glucose_data = demo_glucose) :
    collect_pairs zero_std cs
      = cs.map (fun _ => ([feat_row zero_std demo_fnirs], [qmean demo_glucose])) := by
  induction cs with
  | nil => rfl
  | cons c cs ih =>
    have hc := h c (List.mem_cons_self c cs)
    unfold collect_pairs
    simp only [List.filterMap_cons, hc.1, hc.2, demo_extract, demo_window]
    rw [if_neg (by simp), if_pos (by simp)]
    simp only [List.map_cons]
    rw [← ih (fun d hd => h d (List.mem_cons_of_mem c hd))]
    rfl

theorem flatten_single_len {α β : Type} (cs : List α) (x : List β) (hx : x.length = 1) :
    ((cs.map (fun _ => x)).flatten).length = cs.length := by
  induction cs with
  | nil => rfl
  | cons c cs ih =>
    simp [ih, hx]
    omega

theorem tae_demo (cs ts : List DataChunk) (hcs : cs ≠ []) (hts : ts ≠ [])
    (hc : ∀ c ∈ cs, c.fnirs_data = demo_fnirs ∧ c.glucose_data = demo_glucose)
    (ht : ∀ c ∈ ts, c.fnirs_data = demo_fnirs ∧ c.glucose_data = demo_glucose) :
    train_and_evaluate zero_std row_count_model cs ts = max ((cs.length : ℚ)) (-1) := by
  unfold train_and_evaluate
  rw [if_neg hcs]
  rw [collect_pairs_demo cs hc, collect_pairs_demo ts ht]
  rw [if_neg (by simp [hcs]), if_neg (by simp [hts])]
  simp only [row_count_model]
  have hlen2 : (((cs.map (fun _ =>
      ([feat_row zero_std demo_fnirs], [qmean demo_glucose]))).map Prod.fst)).flatten.length
        = cs.length := by
    rw [List.map_map]
    exact flatten_single_len cs _ rfl
  rw [hlen2]

theorem between_one_peer_not_zero :
    (calculate_between_session_shapley zero_std row_count_model demo_pair demo_s2 0 1
        [0, 0]).1 ≠ some 0 := by
  have heq := between_shapley_eq_trace zero_std row_count_model demo_pair demo_s2 0 1 [0, 0]
    (by decide) (by decide) (by decide)
  rw [heq]
  have hothers : demo_pair.filter (fun c => c.chunk_id != 0) = [mk_demo_chunk 1 "session1"] := by
    simp [demo_pair, mk_demo_chunk]
  have htarget : demo_pair.getD 0 default = mk_demo_chunk 0 "session1" := rfl
  rw [hothers, htarget]
  have htrace : (between_trace [mk_demo_chunk 1 "session1"] 1 [0, 0]).1
      = [(1, [mk_demo_chunk 1 "session1"])] := by
    simp [between_trace, randint, takeNat, sample_list]
  rw [htrace]
  simp only [List.map_cons, List.map_nil, List.sum_cons, List.sum_nil, between_marg]
  have hfields : ∀ i s, ∀ c ∈ [mk_demo_chunk i s],
      c.fnirs_data = demo_fnirs ∧ c.glucose_data = demo_glucose := by
    intro i s c hcm
    rcases List.mem_singleton.mp hcm with rfl
    exact ⟨rfl, rfl⟩
  have h1 : train_and_evaluate zero_std row_count_model
      ([mk_demo_chunk 1 "session1"] ++ [mk_demo_chunk 0 "session1"]) demo_s2 = 2 := by
    rw [tae_demo _ _ (by simp) (by simp [demo_s2]) ?_ ?_]
    · norm_num
    · intro c hcm
      rcases List.mem_append.mp hcm with hcm | hcm <;>
        rcases List.mem_singleton.mp hcm with rfl <;> exact ⟨rfl, rfl⟩
    · intro c hcm
      rcases List.mem_singleton.mp hcm with rfl
      exact ⟨rfl, rfl⟩
  have h2 : train_and_evaluate zero_std row_count_model
      [mk_demo_chunk 1 "session1"] demo_s2 = 1 := by
    rw [tae_demo _ _ (by simp) (by simp [demo_s2]) (hfields 1 "session1") ?_]
    · norm_num
    · intro c hcm
      rcases List.mem_singleton.mp hcm with rfl
      exact ⟨rfl, rfl⟩
  rw [h1, h2]
  intro hcontra
  rw [Option.some_inj] at hcontra
  norm_num at hcontra

/-- C2 (amended): per iteration, within-session mode samples a coalition size
uniformly supported on [1, pool−1] (clamped to at least 1) — not [1, pool] —
while between-session mode samples on [1, pool]; both then draw that many
distinct chunks without replacement from the pool, and both estimators
average exactly the marginal contributions of these recorded draws. -/
theorem coalition_sampling_amended :
    (∀ (others : List DataChunk) (N : ℕ) (tape : List ℕ), 2 ≤ others.length →
        ∀ r ∈ (within_trace others N tape).1,
          1 ≤ r.1 ∧ r.1 ≤ others.length - 1 ∧ r.2.1.length = r.1
            ∧ List.Subperm r.2.1 others)
    ∧ (∀ others : List DataChunk, 2 ≤ others.length →
        ∀ k, 1 ≤ k → k ≤ others.length - 1 →
          ∃ t0 : List ℕ, ((within_trace others 1 t0).1.map (fun r => r.1)) = [k])
    ∧ (∀ (others : List DataChunk) (N : ℕ) (tape : List ℕ), 1 ≤ others.length →
        ∀ r ∈ (between_trace others N tape).1,
          1 ≤ r.1 ∧ r.1 ≤ others.length ∧ r.2.length = r.1
            ∧ List.Subperm r.2 others)
    ∧ (∀ others : List DataChunk, 1 ≤ others.length →
        ∀ k, 1 ≤ k → k ≤ others.length →
          ∃ t0 : List ℕ, ((between_trace others 1 t0).1.map (fun r => r.1)) = [k])
    ∧ (∀ (std : List ℚ → ℚ)
        (model : List (List ℚ) → List ℚ → List (List ℚ) → List ℚ → Except String ℚ)
        (chunks : List DataChunk) (t N : ℕ) (tape : List ℕ),
        t < chunks.length →
        ¬ ((chunks.filter (fun c => c.chunk_id != t)).length < 2) → N ≠ 0 →
        (calculate_within_session_shapley std model chunks t N tape).1
          = some ((((within_trace (chunks.filter (fun c => c.chunk_id != t)) N tape).1.map
              (within_marg std model (chunks.getD t default))).sum) / (N : ℚ)))
    ∧ (∀ (std : List ℚ → ℚ)
        (model : List (List ℚ) → List ℚ → List (List ℚ) → List ℚ → Except String ℚ)
        (s1 s2 : List DataChunk) (t N : ℕ) (tape : List ℕ),
        t < s1.length →
        ¬ ((s1.filter (fun c => c.chunk_id != t)).length < 1) → N ≠ 0 →
        (calculate_between_session_shapley std model s1 s2 t N tape).1
          = some ((((between_trace (s1.filter (fun c => c.chunk_id != t)) N tape).1.map
              (between_marg std model (s1.getD t default) s2)).sum) / (N : ℚ))) := by
  refine ⟨?_, ?_, ?_, ?_, ?_, ?_⟩
  · intro others N tape h2 r hr
    exact within_trace_basic others h2 N tape r hr
  · intro others h2 k h1k hk
    exact ⟨[k - 1], within_trace_first_size others h2 k h1k hk⟩
  · intro others N tape h1 r hr
    exact between_trace_basic others h1 N tape r hr
  · intro others h1 k h1k hk
    exact ⟨[k - 1], between_trace_first_size others h1 k h1k hk⟩
  · intro std model chunks t N tape hlt h2 hN
    exact within_shapley_eq_trace std model chunks t N tape hlt h2 hN
  · intro std model s1 s2 t N tape hlt h1 hN
    exact between_shapley_eq_trace std model s1 s2 t N tape hlt h1 hN

/-- C2 witness: on a pool of 3 peer chunks, within-session mode attains
coalition size 2 = pool − 1 for a concrete tape. -/
theorem coalition_sampling_amended_witness :
    ∃ t0 : List ℕ, ((within_trace demo_pool3 1 t0).1.map (fun r => r.1)) = [2] :=
  coalition_sampling_amended.2.1 demo_pool3 (by decide) 2 (by decide) (by decide)

/-- C2 counterexample: the claim as stated — that the coalition size ranges
over [1, pool size] in both modes — is false for within-session mode: on a
pool of 3 chunks, no state of the random generator ever yields coalition
size 3. -/
theorem coalition_size_never_pool_size :
    ¬ (∀ k, 1 ≤ k → k ≤ demo_pool3.length →
        ∃ t0 : List ℕ, ((within_trace demo_pool3 1 t0).1.map (fun r => r.1)) = [k]) := by
  intro hcl
  obtain ⟨t0, ht⟩ := hcl 3 (by norm_num) (by decide)
  have hlen : demo_pool3.length = 3 := by decide
  rcases htr : (within_trace demo_pool3 1 t0).1 with _ | ⟨r, rest⟩
  · rw [htr] at ht
    simp at ht
  · have hr : r ∈ (within_trace demo_pool3 1 t0).1 := by
      rw [htr]
      exact List.mem_cons_self _ _
    have hb := within_trace_basic demo_pool3 (by decide) 1 t0 r hr
    rw [htr] at ht
    simp only [List.map_cons] at ht
    have hhead : r.1 = 3 := (List.cons_eq_cons.mp ht).1
    have hle := hb.2.1
    rw [hlen] at hle
    omega

/-- C6: in within-session mode with at least 2 other chunks, the returned
estimate is the arithmetic mean over the N iterations of
utility(coalition ∪ {target}) − utility(coalition), where each iteration's
single test chunk comes from the peer pool, is disjoint from the sampled
coalition, and is distinct from the target. -/
theorem within_mean_of_marginals (std : List ℚ → ℚ)
    (model : List (List ℚ) → List ℚ → List (List ℚ) → List ℚ → Except String ℚ)
    (chunks : List DataChunk) (t N : ℕ) (tape : List ℕ)
    (hlt : t < chunks.length)
    (hid : (chunks.getD t default).chunk_id = t)
    (hnd : (chunks.map dcKey).Nodup)
    (h2 : 2 ≤ (chunks.filter (fun c => c.chunk_id != t)).length)
    (hN : N ≠ 0) :
    ∃ recs : List (List DataChunk × DataChunk),
      recs.length = N
      ∧ (calculate_within_session_shapley std model chunks t N tape).1
          = some ((recs.map (fun p =>
                train_and_evaluate std model (p.1 ++ [chunks.getD t default]) [p.2]
                  - train_and_evaluate std model p.1 [p.2])).sum / (N : ℚ))
      ∧ ∀ p ∈ recs,
          p.2 ∈ chunks.filter (fun c => c.chunk_id != t)
          ∧ (∀ c ∈ p.1, dcKey p.2 ≠ dcKey c)
          ∧ p.2 ≠ chunks.getD t default
          ∧ List.Subperm p.1 (chunks.filter (fun c => c.chunk_id != t)) := by
  have hnd' : ((chunks.filter (fun c => c.chunk_id != t)).map dcKey).Nodup :=
    List.Nodup.sublist (List.Sublist.map dcKey (List.filter_sublist chunks)) hnd
  refine ⟨(within_trace (chunks.filter (fun c => c.chunk_id != t)) N tape).1.map
    (fun r => (r.2.1, r.2.2.getD default)), ?_, ?_, ?_⟩
  · rw [List.length_map, within_trace_length]
  · rw [within_shapley_eq_trace std model chunks t N tape hlt (by omega) hN]
    congr 2
    rw [List.map_map]
    congr 1
    apply List.map_congr_left
    intro r hr
    obtain ⟨test, hts, htmem, htdisj⟩ :=
      within_trace_test (chunks.filter (fun c => c.chunk_id != t)) hnd' h2 N tape r hr
    simp [Function.comp, within_marg, hts]
  · intro p hp
    obtain ⟨r, hr, hpr⟩ := List.mem_map.mp hp
    obtain ⟨test, hts, htmem, htdisj⟩ :=
      within_trace_test (chunks.filter (fun c => c.chunk_id != t)) hnd' h2 N tape r hr
    obtain ⟨_, _, _, hsp⟩ :=
      within_trace_basic (chunks.filter (fun c => c.chunk_id != t)) h2 N tape r hr
    have hp2 : p.2 = test := by
      rw [← hpr]
      simp [hts]
    have hp1 : p.1 = r.2.1 := by rw [← hpr]
    refine ⟨?_, ?_, ?_, ?_⟩
    · rw [hp2]
      exact htmem
    · intro c hcmem
      rw [hp2]
      rw [hp1] at hcmem
      intro hkey
      have hdc : dcEq test c = true := (dcEq_iff test c).mpr hkey
      have := List.any_eq_false.mp htdisj c hcmem
      exact this hdc
    · rw [hp2]
      intro heq
      have hmem2 := List.mem_filter.mp htmem
      have hneq : (test.chunk_id != t) = true := hmem2.2
      rw [heq, hid] at hneq
      simp at hneq
    · rw [hp1]
      exact hsp

/-- C6 witness: the mean-of-marginals form instantiated on a concrete
three-chunk session with target 0, one iteration and a concrete tape. -/
theorem within_mean_of_marginals_witness :
    ∃ recs : List (List DataChunk × DataChunk),
      recs.length = 1
      ∧ (calculate_within_session_shapley zero_std row_count_model demo_pool3 0 1
            [0, 0, 0]).1
          = some ((recs.map (fun p =>
                train_and_evaluate zero_std row_count_model
                    (p.1 ++ [demo_pool3.getD 0 default]) [p.2]
                  - train_and_evaluate zero_std row_count_model p.1 [p.2])).sum / ((1 : ℕ) : ℚ))
      ∧ ∀ p ∈ recs,
          p.2 ∈ demo_pool3.filter (fun c => c.chunk_id != 0)
          ∧ (∀ c ∈ p.1, dcKey p.2 ≠ dcKey c)
          ∧ p.2 ≠ demo_pool3.getD 0 default
          ∧ List.Subperm p.1 (demo_pool3.filter (fun c => c.chunk_id != 0)) :=
  within_mean_of_marginals zero_std row_count_model demo_pool3 0 1 [0, 0, 0]
    (by decide) (by decide) (by decide) (by decide) (by decide)

theorem demo_rows_strides :
    strides_of 2 demo_rows = [[demo_row 0, demo_row 1], [demo_row 2, demo_row 3]] := rfl

theorem demo_split :
    split_into_chunks 2 demo_rows "session1"
      = [chunk_of_slice "session1" 0 [demo_row 0, demo_row 1],
         chunk_of_slice "session1" 1 [demo_row 2, demo_row 3]] := by
  unfold split_into_chunks
  rw [demo_rows_strides]
  simp only [split_chunks_go]
  rw [if_pos (by norm_num), if_pos (by norm_num)]

/-- C9 witness: on a concrete four-row table with chunk size 2, the chunk at
position 1 carries chunk_id 1, and filtering peers by chunk_id 1 removes
exactly the chunk at index 1. -/
theorem chunker_ids_match_positions_witness :
    ((split_into_chunks 2 demo_rows "session1").getD 1 default).chunk_id = 1
    ∧ (split_into_chunks 2 demo_rows "session1").filter (fun c => c.chunk_id != 1)
        = (split_into_chunks 2 demo_rows "session1").eraseIdx 1 :=
  ⟨(chunker_ids_match_positions 2 demo_rows "session1").1 1
      (by rw [demo_split]; decide),
   (chunker_ids_match_positions 2 demo_rows "session1").2 1⟩
